import Mathlib

/-!
# Verification of the resilient SSE streaming client

This development embeds the SSE (Server-Sent-Events) streaming client of the
repository into Lean and proves / refutes the specified properties.

The embedded code:
* `src/src/utils/fetch-sse.ts`, class `FetchSSEClient`:
  `processStream`, `processSSELine`, `parseSSEEvent`, `dispatchEvent`,
  `handleConnectionError`, `scheduleReconnect`, `cleanup`, `close`, `connect`;
* `src/src/utils/fetch-sse.ts`, class `ResilientSSE`:
  `handleConnectionError`, `handleMessage`, `close`, `connect` and the
  EventSource event handlers.

JavaScript strings are modelled as `List Char`; byte streams as `List Nat`
(each entry one byte).  The platform `TextDecoder` in streaming mode
(`decode(value, { stream: true })`) is modelled by `utf8DecodeStream`, which
decodes the maximal complete UTF-8 sequence and retains any trailing
incomplete sequence (spec section 4.2 describes exactly this retention
behaviour).  `Date.now()` bookkeeping (`this.lastHeartbeat = ...`) is modelled
by the `SSESignal.touched` output, emitted whenever the code refreshes the
liveness timestamp.
-/

set_option autoImplicit false

namespace SSE

/-- The characters of a string literal (JS strings are lists of characters
here). -/
def chars (s : String) : List Char := s.data

/-- JS whitespace relevant to `String.prototype.trim` on the ASCII range:
space, tab, line feed, vertical tab, form feed, carriage return. -/
def jsIsSpace (c : Char) : Bool :=
  c == ' ' || c == '\t' || c == '\n' || c == '\r' ||
  c == Char.ofNat 11 || c == Char.ofNat 12

/-- Model of `String.prototype.trim`: drop leading and trailing whitespace. -/
def jsTrim (l : List Char) : List Char :=
  ((l.dropWhile jsIsSpace).reverse.dropWhile jsIsSpace).reverse

/-- Model of `line.startsWith(p)`. -/
def beginsWith : List Char → List Char → Bool
  | [], _ => true
  | _ :: _, [] => false
  | p :: ps, c :: cs => p == c && beginsWith ps cs

/-- Split a line at its first colon: `line.indexOf(':')` followed by the two
`line.slice` calls of `parseSSEEvent`.  Returns `none` when the line has no
colon (`colonIndex === -1`). -/
def breakAtColon : List Char → Option (List Char × List Char)
  | [] => none
  | c :: cs =>
    if c = ':' then some ([], cs)
    else
      match breakAtColon cs with
      | none => none
      | some (f, v) => some (c :: f, v)

/-- Model of `data.replace(/\n$/, '')`: remove one trailing newline if
present. -/
def stripTrailingNl (l : List Char) : List Char :=
  match l.getLast? with
  | some c => if c = '\n' then l.dropLast else l
  | none => l

/-- Leading decimal digits of a character list, if the list starts with at
least one digit. -/
def leadingNat : List Char → Option Nat
  | [] => none
  | c :: cs =>
    if c.isDigit then
      some ((c :: cs).takeWhile Char.isDigit |>.foldl
        (fun n d => 10 * n + (d.toNat - 48)) 0)
    else none

/-- Model of `parseInt(value, 10)` on an already-trimmed value: optional
sign followed by leading decimal digits; a `NaN` result is modelled as
`none`. -/
def jsParseInt (l : List Char) : Option Int :=
  match l with
  | '-' :: rest => (leadingNat rest).map (fun n => -(n : Int))
  | '+' :: rest => (leadingNat rest).map (fun n => (n : Int))
  | _ => (leadingNat l).map (fun n => (n : Int))

/-! ## Streaming UTF-8 decoder (`new TextDecoder()` with `stream: true`) -/

/-- Total number of bytes of the UTF-8 sequence led by byte `b` (an invalid
lead byte is consumed on its own). -/
def utf8Len (b : Nat) : Nat :=
  if b < 0x80 then 1
  else if b < 0xC0 then 1
  else if b < 0xE0 then 2
  else if b < 0xF0 then 3
  else if b < 0xF8 then 4
  else 1

/-- The scalar value of a complete UTF-8 sequence `b :: rest` (only applied
to sequences of the length demanded by `utf8Len b`). -/
def utf8DecodeChar (b : Nat) (rest : List Nat) : Char :=
  match rest with
  | [] => Char.ofNat b
  | [b1] => Char.ofNat ((b % 0x20) * 0x40 + b1 % 0x40)
  | [b1, b2] => Char.ofNat ((b % 0x10) * 0x1000 + (b1 % 0x40) * 0x40 + b2 % 0x40)
  | b1 :: b2 :: b3 :: _ =>
    Char.ofNat ((b % 0x8) * 0x40000 + (b1 % 0x40) * 0x1000 +
      (b2 % 0x40) * 0x40 + b3 % 0x40)

/-- Fuel-indexed streaming UTF-8 decode (structural recursion on the fuel;
the fuel never runs out when it starts at the length of the byte list). -/
def utf8DecodeFuel : Nat → List Nat → List Char × List Nat
  | _, [] => ([], [])
  | 0, l => ([], l)
  | fuel + 1, b :: rest =>
    if rest.length + 1 ≥ utf8Len b then
      match utf8DecodeFuel fuel (rest.drop (utf8Len b - 1)) with
      | (cs, p) => (utf8DecodeChar b (rest.take (utf8Len b - 1)) :: cs, p)
    else ([], b :: rest)

/-- Streaming UTF-8 decode: decode complete sequences from the front, return
the decoded characters together with the retained trailing incomplete
sequence.  This is the state evolution of `TextDecoder` under
`decode(chunk, { stream: true })`. -/
def utf8DecodeStream (l : List Nat) : List Char × List Nat :=
  utf8DecodeFuel l.length l

/-- UTF-8 bytes of a list of ASCII characters (used for concrete streams). -/
def asciiBytes (s : String) : List Nat := s.data.map Char.toNat

/-! ## Line extraction

`processStream` keeps `buffer`, appends each decoded chunk, then runs
`const lines = buffer.split('\n'); buffer = lines.pop() || ''`.
`extractLines s` returns exactly (`s.split('\n')` minus its last element,
last element of `s.split('\n')`). -/

/-- Complete lines (everything before the last `'\n'`-free remainder) and the
retained remainder of a character buffer. -/
def extractLines : List Char → List (List Char) × List Char
  | [] => ([], [])
  | c :: rest =>
    match extractLines rest with
    | (ls, b) =>
      if c = '\n' then ([] :: ls, b)
      else
        match ls with
        | [] => ([], c :: b)
        | l :: ls' => ((c :: l) :: ls', b)

/-! ## The SSE event parser of `FetchSSEClient` -/

/-- The mutable accumulator `this.currentEvent : ParsedSSEEvent`. -/
structure ParsedSSEEvent where
  event : Option (List Char)
  data : Option (List Char)
  id : Option (List Char)
  retry : Option Int
  deriving DecidableEq, Repr

/-- The empty accumulator `{}`. -/
def emptyEvent : ParsedSSEEvent := ⟨none, none, none, none⟩

/-- A dispatched `SSEMessage`.  `event`/`id`/`retry` stay `undefined`
(`none`) when the frame did not set them. -/
structure SSEMessage where
  data : List Char
  event : Option (List Char)
  id : Option (List Char)
  retry : Option Int
  deriving DecidableEq, Repr

/-- Observable outcome of processing one line:
`touched` models `this.lastHeartbeat = Date.now()`,
`heartbeat` models the `onHeartbeat()` callback,
`message` models the `onMessage(message)` callback. -/
inductive SSESignal where
  | touched
  | heartbeat
  | message (m : SSEMessage)
  deriving DecidableEq, Repr

/-- `parseSSEEvent(line)`: split at the first colon, trim the value and
record it in the accumulator.  `(this.currentEvent.data || '')` is modelled
by `getD []` (when set, the accumulator always ends in `'\n'`, so it is never
the falsy empty string). -/
def parseSSEEvent (cur : ParsedSSEEvent) (line : List Char) : ParsedSSEEvent :=
  match breakAtColon line with
  | none => cur
  | some (field, rest) =>
    let value := jsTrim rest
    if field = chars "data" then
      { cur with data := some ((cur.data.getD []) ++ value ++ ['\n']) }
    else if field = chars "event" then { cur with event := some value }
    else if field = chars "id" then { cur with id := some value }
    else if field = chars "retry" then { cur with retry := jsParseInt value }
    else cur

/-- `dispatchEvent()`: emit a message exactly when the frame set `data`,
with one trailing newline removed. -/
def dispatchEvent (cur : ParsedSSEEvent) : List SSESignal :=
  match cur.data with
  | some d => [.message ⟨stripTrailingNl d, cur.event, cur.id, cur.retry⟩]
  | none => []

/-- `processSSELine(line)`: refresh the liveness timestamp, handle comments,
dispatch on blank-ish lines, parse recognised field lines, ignore the rest. -/
def processSSELine (cur : ParsedSSEEvent) (line : List Char) :
    ParsedSSEEvent × List SSESignal :=
  if beginsWith (chars ":") line then (cur, [.touched, .heartbeat])
  else if jsTrim line = [] then (emptyEvent, .touched :: dispatchEvent cur)
  else if beginsWith (chars "data:") line || beginsWith (chars "event:") line
      || beginsWith (chars "id:") line || beginsWith (chars "retry:") line then
    (parseSSEEvent cur line, [.touched])
  else (cur, [.touched])

/-- Process a list of complete lines in order. -/
def processLines (cur : ParsedSSEEvent) :
    List (List Char) → ParsedSSEEvent × List SSESignal
  | [] => (cur, [])
  | l :: ls =>
    match processSSELine cur l with
    | (c1, o1) =>
      match processLines c1 ls with
      | (c2, o2) => (c2, o1 ++ o2)

/-- The state of `processStream`: the `TextDecoder`'s retained bytes, the
line `buffer`, and `this.currentEvent`. -/
structure StreamState where
  decPending : List Nat
  buf : List Char
  cur : ParsedSSEEvent
  deriving DecidableEq, Repr

/-- Fresh state at the start of `processStream`. -/
def initStreamState : StreamState := ⟨[], [], emptyEvent⟩

/-- One iteration of the `processStream` read loop on a received byte chunk:
streaming-decode, append to the buffer, split off complete lines, process
them. -/
def feedChunk (s : StreamState) (chunk : List Nat) :
    StreamState × List SSESignal :=
  match utf8DecodeStream (s.decPending ++ chunk) with
  | (txt, pend) =>
    match extractLines (s.buf ++ txt) with
    | (lines, buf) =>
      match processLines s.cur lines with
      | (cur, out) => (⟨pend, buf, cur⟩, out)

/-- Feed a sequence of byte chunks one at a time. -/
def feedChunks (s : StreamState) : List (List Nat) → StreamState × List SSESignal
  | [] => (s, [])
  | c :: cs =>
    match feedChunk s c with
    | (s1, o1) =>
      match feedChunks s1 cs with
      | (s2, o2) => (s2, o1 ++ o2)

/-- The messages among a list of signals (the `onMessage` call sequence). -/
def messagesOf (l : List SSESignal) : List SSEMessage :=
  l.foldr (fun s acc => match s with | .message m => m :: acc | _ => acc) []

/-! ## Backoff (`scheduleReconnect` of `FetchSSEClient`, and the
reconnection branch of `ResilientSSE.handleConnectionError`)

Delays are rationals (milliseconds); `Math.random() * 500` is modelled as an
arbitrary jitter parameter in `[0, 500)`. -/

/-- `const BACKOFF_SCHEDULE = [1000, 2000, 4000, 8000, 16000, 30000]`
(module-level constant used by `FetchSSEClient`). -/
def BACKOFF_SCHEDULE : List Rat := [1000, 2000, 4000, 8000, 16000, 30000]

/-- `ResilientSSE.BACKOFF_SCHEDULE = [1000, 2000, 4000, 8000, 16000, 30000]`
(static field of `ResilientSSE`). -/
def resilientBACKOFF_SCHEDULE : List Rat := [1000, 2000, 4000, 8000, 16000, 30000]

/-- The delay computed by `FetchSSEClient.scheduleReconnect`:
`Math.min(BACKOFF_SCHEDULE[Math.min(attempts, len - 1)] + jitter, maxBackoffMs)`. -/
def fetchReconnectDelay (attempts : Nat) (jitter maxBackoffMs : Rat) : Rat :=
  let backoffIndex := min attempts (BACKOFF_SCHEDULE.length - 1)
  let baseDelay := BACKOFF_SCHEDULE.getD backoffIndex 0
  min (baseDelay + jitter) maxBackoffMs

/-- The delay computed in `ResilientSSE.handleConnectionError`:
`Math.min(ResilientSSE.BACKOFF_SCHEDULE[Math.min(attempts, len - 1)] + jitter,
maxBackoffMs)`. -/
def resilientReconnectDelay (attempts : Nat) (jitter maxBackoffMs : Rat) : Rat :=
  let backoffIndex := min attempts (resilientBACKOFF_SCHEDULE.length - 1)
  let baseBackoff := resilientBACKOFF_SCHEDULE.getD backoffIndex 0
  min (baseBackoff + jitter) maxBackoffMs

/-! ## Lifecycle state machine of `FetchSSEClient`

The client is single-threaded (spec section 5): the read loop and the timers
interleave as discrete events.  An `AbortController.abort()` makes every
pending read or fetch of that controller resolve with `AbortError`, which
`connect` swallows (`if error.name === 'AbortError') return`), producing no
observable effect; the model therefore removes aborted in-flight work
immediately.  Consumer messages/errors/status changes are the observable
calls. -/

/-- `ConnectionState` of the spec / status strings of the callbacks. -/
inductive ConnState where
  | connecting
  | connected
  | reconnecting
  | disconnected
  deriving DecidableEq, Repr

/-- An observable consumer callback invocation of `FetchSSEClient`. -/
inductive FetchCall where
  | onMessage (m : SSEMessage)
  | onError (msg : String)
  | onStatus (s : ConnState)
  | onHeartbeat
  deriving DecidableEq, Repr

/-- Instance state of `FetchSSEClient` relevant to the lifecycle:
whether a `fetch` is in flight, whether the read loop is active, whether the
heartbeat interval and the reconnect timeout are armed, `reconnectAttempts`,
the configured `maxReconnectAttempts`, `isConnected`, and the stream-parsing
state of the active read loop. -/
structure FetchSt where
  pendingFetch : Bool
  readerActive : Bool
  hbArmed : Bool
  reconArmed : Bool
  att : Nat
  maxAtt : Nat
  isConn : Bool
  stream : StreamState
  deriving DecidableEq, Repr

/-- Events that can reach a `FetchSSEClient` instance. -/
inductive FEvent where
  /-- the consumer calls `close()` -/
  | close
  /-- the consumer calls `connect()` -/
  | connectCalled
  /-- the in-flight `fetch` resolves with an ok response carrying a body -/
  | fetchOk
  /-- the in-flight `fetch` fails (network error / non-ok status / no body) -/
  | fetchFail (msg : String)
  /-- the read loop receives a byte chunk -/
  | chunkArrives (c : List Nat)
  /-- the read loop sees `done` (stream ended) -/
  | streamEnds
  /-- `reader.read()` rejects with a non-abort error -/
  | readFails (msg : String)
  /-- the armed reconnect timeout fires -/
  | reconnectFires
  /-- the heartbeat interval fires and finds the liveness timeout exceeded -/
  | hbExpires
  deriving DecidableEq, Repr

/-- `cleanup()`: abort the controller (silently ending any in-flight fetch
or read loop), clear the reconnect timeout, stop the heartbeat interval,
reset `isConnected`. -/
def fetchCleanup (s : FetchSt) : FetchSt :=
  { s with pendingFetch := false, readerActive := false,
           reconArmed := false, hbArmed := false, isConn := false }

/-- `handleConnectionError(error)`: drop `isConnected`, stop the heartbeat
monitor, report the error, then either schedule a reconnect (status
`reconnecting`, timer armed) or report `disconnected`. -/
def fetchHandleError (s : FetchSt) (msg : String) : FetchSt × List FetchCall :=
  let s := { s with isConn := false, hbArmed := false }
  if s.att < s.maxAtt then
    ({ s with reconArmed := true }, [.onError msg, .onStatus .reconnecting])
  else
    (s, [.onError msg, .onStatus .disconnected])

/-- The synchronous head of `connect()`: `cleanup()`, a fresh
`AbortController`, status `connecting`, and the `fetch` call left in
flight. -/
def fetchConnect (s : FetchSt) : FetchSt × List FetchCall :=
  ({ fetchCleanup s with pendingFetch := true }, [.onStatus .connecting])

/-- Consumer-visible calls produced by the signals of the line parser. -/
def callsOfSignals (l : List SSESignal) : List FetchCall :=
  l.foldr
    (fun s acc =>
      match s with
      | .message m => .onMessage m :: acc
      | .heartbeat => .onHeartbeat :: acc
      | .touched => acc)
    []

/-- One event step of a `FetchSSEClient` instance.  Events whose source is
not active (a cleared timer, an aborted fetch, a released reader) cannot be
delivered and leave the state unchanged. -/
def fetchStep (s : FetchSt) (e : FEvent) : FetchSt × List FetchCall :=
  match e with
  | .close => (fetchCleanup s, [.onStatus .disconnected])
  | .connectCalled => fetchConnect s
  | .fetchOk =>
    if s.pendingFetch then
      ({ s with pendingFetch := false, isConn := true, att := 0,
                 hbArmed := true, readerActive := true,
                 stream := initStreamState },
       [.onStatus .connected])
    else (s, [])
  | .fetchFail msg =>
    if s.pendingFetch then
      fetchHandleError { s with pendingFetch := false } msg
    else (s, [])
  | .chunkArrives c =>
    if s.readerActive then
      match feedChunk s.stream c with
      | (st, out) => ({ s with stream := st }, callsOfSignals out)
    else (s, [])
  | .streamEnds =>
    if s.readerActive then ({ s with readerActive := false }, []) else (s, [])
  | .readFails msg =>
    if s.readerActive then
      fetchHandleError { s with readerActive := false } msg
    else (s, [])
  | .reconnectFires =>
    if s.reconArmed then
      fetchConnect { s with reconArmed := false, att := s.att + 1 }
    else (s, [])
  | .hbExpires =>
    if s.hbArmed then fetchHandleError s "Heartbeat timeout" else (s, [])

/-- Run a sequence of events, collecting all observable calls. -/
def fetchRun (s : FetchSt) : List FEvent → FetchSt × List FetchCall
  | [] => (s, [])
  | e :: es =>
    match fetchStep s e with
    | (s1, o1) =>
      match fetchRun s1 es with
      | (s2, o2) => (s2, o1 ++ o2)

/-! ## Lifecycle state machine of `ResilientSSE`

The managed (EventSource-based) variant.  A closed `EventSource` delivers no
further events; the reconnect `setTimeout` is never cleared, but its callback
checks `isDestroyed` before reconnecting. -/

/-- An observable consumer callback invocation of `ResilientSSE`. -/
inductive RCall where
  | onMessage (data : List Char) (event : List Char) (id : Option (List Char))
  | onError (msg : String)
  | onStatus (s : ConnState)
  | onHeartbeat
  deriving DecidableEq, Repr

/-- Instance state of `ResilientSSE` relevant to the lifecycle. -/
structure RSt where
  isDestroyed : Bool
  esOpen : Bool
  hbArmed : Bool
  reconPending : Bool
  att : Nat
  maxAtt : Nat
  lastId : Option (List Char)
  deriving DecidableEq, Repr

/-- Events that can reach a `ResilientSSE` instance. -/
inductive REvent where
  /-- the consumer calls `close()` (default `final = true`) -/
  | close
  /-- the consumer calls `connect()` -/
  | connectCalled
  /-- the `EventSource` fires `onopen` -/
  | esOpened
  /-- the `EventSource` fires `onmessage` -/
  | esMessage (data : List Char) (lastEventId : Option (List Char))
  /-- the `EventSource` delivers a `ping` event -/
  | esPing
  /-- the `EventSource` delivers a `done` event -/
  | esDoneEvent
  /-- the `EventSource` delivers a `cancelled` event -/
  | esCancelledEvent
  /-- the `EventSource` delivers a custom `error` event -/
  | esErrorEvent (msg : String)
  /-- the `EventSource` fires `onerror` (connection-level failure) -/
  | esConnError
  /-- the armed reconnect `setTimeout` fires -/
  | reconFires
  /-- the heartbeat interval fires and finds the liveness timeout exceeded -/
  | hbExpires
  deriving DecidableEq, Repr

/-- `cleanup(false)`: stop the heartbeat monitor and close the
`EventSource`. -/
def rCleanup (s : RSt) : RSt :=
  { s with hbArmed := false, esOpen := false }

/-- `close(final)`: `cleanup(false)`, and when `final` also destroy the
instance, abort, and report `disconnected`. -/
def rClose (s : RSt) (final : Bool) : RSt × List RCall :=
  if final then
    ({ rCleanup s with isDestroyed := true }, [.onStatus .disconnected])
  else (rCleanup s, [])

/-- `connect()`: refused after destruction; otherwise report `connecting`
and attach a fresh `EventSource`. -/
def rConnect (s : RSt) : RSt × List RCall :=
  if s.isDestroyed then (s, [])
  else ({ s with esOpen := true }, [.onStatus .connecting])

/-- `handleConnectionError()`: guarded by `isDestroyed`/missing
`EventSource`; clean up, then either report terminal exhaustion or schedule
a reconnect with backoff. -/
def rHandleConnError (s : RSt) : RSt × List RCall :=
  if s.isDestroyed || !s.esOpen then (s, [])
  else
    let s := rCleanup s
    if s.att ≥ s.maxAtt then
      (s, [.onStatus .disconnected, .onError "Max reconnection attempts reached"])
    else
      ({ s with att := s.att + 1, reconPending := true },
       [.onStatus .reconnecting])

/-- `handleMessage(event)`: refresh liveness, record the last event id,
swallow terminators and heartbeat payloads, otherwise forward the message
with event type `message`. -/
def rHandleMessage (s : RSt) (data : List Char) (lastEventId : Option (List Char)) :
    RSt × List RCall :=
  let s :=
    if lastEventId = none ∨ lastEventId = some [] then s
    else { s with lastId := lastEventId }
  if data = chars "[DONE]" || data = chars "stream_complete" then
    ((rClose s false).1, [])
  else if data = chars "heartbeat" || data = chars "connected" then (s, [])
  else (s, [.onMessage data (chars "message") lastEventId])

/-- One event step of a `ResilientSSE` instance.  Events of a closed
`EventSource` and fires of unarmed timers leave the state unchanged. -/
def rStep (s : RSt) (e : REvent) : RSt × List RCall :=
  match e with
  | .close => rClose s true
  | .connectCalled => rConnect s
  | .esOpened =>
    if s.esOpen then ({ s with att := 0, hbArmed := true }, [.onStatus .connected])
    else (s, [])
  | .esMessage data lastEventId =>
    if s.esOpen then rHandleMessage s data lastEventId else (s, [])
  | .esPing => if s.esOpen then (s, [.onHeartbeat]) else (s, [])
  | .esDoneEvent => if s.esOpen then ((rClose s false).1, []) else (s, [])
  | .esCancelledEvent => if s.esOpen then ((rClose s false).1, []) else (s, [])
  | .esErrorEvent msg =>
    if s.esOpen then ((rClose s false).1, [.onError msg]) else (s, [])
  | .esConnError => rHandleConnError s
  | .reconFires =>
    if s.reconPending then
      if s.isDestroyed then ({ s with reconPending := false }, [])
      else rConnect { s with reconPending := false }
    else (s, [])
  | .hbExpires => if s.hbArmed then rHandleConnError s else (s, [])

/-- Run a sequence of events, collecting all observable calls. -/
def rRun (s : RSt) : List REvent → RSt × List RCall
  | [] => (s, [])
  | e :: es =>
    match rStep s e with
    | (s1, o1) =>
      match rRun s1 es with
      | (s2, o2) => (s2, o1 ++ o2)

/-- Concatenation of values each followed by a newline — the shape of the
`data` accumulator after a sequence of `data:` lines. -/
def joinNl (vs : List (List Char)) : List Char :=
  (vs.map (fun v => v ++ ['\n'])).flatten

/-- A `FetchSSEClient` with no in-flight fetch, no active reader, and no
armed timer: nothing can wake it up except the consumer. -/
def FetchQuiet (s : FetchSt) : Prop :=
  s.pendingFetch = false ∧ s.readerActive = false ∧ s.hbArmed = false ∧
    s.reconArmed = false

/-- A `ResilientSSE` with no open `EventSource` and no armed heartbeat,
whose reconnect timeout (if still pending) is neutralised by destruction. -/
def RQuiet (s : RSt) : Prop :=
  s.esOpen = false ∧ s.hbArmed = false ∧ (s.reconPending = true → s.isDestroyed = true)

/-- A destroyed `ResilientSSE`: quiet, and refusing even consumer
`connect()` calls. -/
def RDead (s : RSt) : Prop :=
  s.isDestroyed = true ∧ s.esOpen = false ∧ s.hbArmed = false

end SSE

/-! # Theorems -/

namespace SSE

/-! ## Basic computation lemmas -/

theorem chars_colon : chars ":" = [':'] := rfl

theorem chars_dataColon : chars "data:" = ['d', 'a', 't', 'a', ':'] := rfl

theorem chars_eventColon : chars "event:" = ['e', 'v', 'e', 'n', 't', ':'] := rfl

theorem chars_idColon : chars "id:" = ['i', 'd', ':'] := rfl

theorem chars_retryColon : chars "retry:" = ['r', 'e', 't', 'r', 'y', ':'] := rfl

/-! ## The streaming decoder is insensitive to chunk boundaries -/

theorem utf8DecodeFuel_congr :
    ∀ (f1 f2 : Nat) (l : List Nat), l.length ≤ f1 → l.length ≤ f2 →
      utf8DecodeFuel f1 l = utf8DecodeFuel f2 l := by
  intro f1
  induction f1 with
  | zero =>
    intro f2 l h1 _
    have : l = [] := List.length_eq_zero.mp (Nat.le_zero.mp h1)
    subst this
    cases f2 <;> rfl
  | succ f ih =>
    intro f2 l h1 h2
    cases l with
    | nil => cases f2 <;> rfl
    | cons b rest =>
      cases f2 with
      | zero => simp at h2
      | succ g =>
        simp only [utf8DecodeFuel]
        have hlen : (rest.drop (utf8Len b - 1)).length ≤ rest.length := by
          simp only [List.length_drop]; omega
        have hr1 : (rest.drop (utf8Len b - 1)).length ≤ f := by
          simp only [List.length_cons] at h1; omega
        have hr2 : (rest.drop (utf8Len b - 1)).length ≤ g := by
          simp only [List.length_cons] at h2; omega
        rw [ih g (rest.drop (utf8Len b - 1)) hr1 hr2]

theorem utf8DecodeStream_nil : utf8DecodeStream [] = ([], []) := rfl

theorem utf8DecodeStream_cons (b : Nat) (rest : List Nat) :
    utf8DecodeStream (b :: rest) =
      if rest.length + 1 ≥ utf8Len b then
        match utf8DecodeStream (rest.drop (utf8Len b - 1)) with
        | (cs, p) => (utf8DecodeChar b (rest.take (utf8Len b - 1)) :: cs, p)
      else ([], b :: rest) := by
  show utf8DecodeFuel (rest.length + 1) (b :: rest) = _
  simp only [utf8DecodeFuel]
  rw [utf8DecodeFuel_congr rest.length (rest.drop (utf8Len b - 1)).length
    (rest.drop (utf8Len b - 1))
    (by simp only [List.length_drop]; omega) (Nat.le_refl _)]
  rfl

/-- Feeding `a` and then `b` through the streaming decoder decodes the same
characters as feeding `a ++ b`, with the same retained bytes: the decoder is
insensitive to where the chunk boundary falls, including inside a multi-byte
character. -/
theorem utf8DecodeStream_append : ∀ (a b : List Nat),
    utf8DecodeStream (a ++ b) =
      ((utf8DecodeStream a).1 ++
        (utf8DecodeStream ((utf8DecodeStream a).2 ++ b)).1,
       (utf8DecodeStream ((utf8DecodeStream a).2 ++ b)).2) := by
  have main : ∀ (n : Nat) (a b : List Nat), a.length ≤ n →
      utf8DecodeStream (a ++ b) =
        ((utf8DecodeStream a).1 ++
          (utf8DecodeStream ((utf8DecodeStream a).2 ++ b)).1,
         (utf8DecodeStream ((utf8DecodeStream a).2 ++ b)).2) := by
    intro n
    induction n with
    | zero =>
      intro a b h
      have : a = [] := List.length_eq_zero.mp (Nat.le_zero.mp h)
      subst this
      simp [utf8DecodeStream_nil]
    | succ m ih =>
      intro a b h
      cases a with
      | nil => simp [utf8DecodeStream_nil]
      | cons x rest =>
        by_cases hk : rest.length + 1 ≥ utf8Len x
        · have hk' : (rest ++ b).length + 1 ≥ utf8Len x := by
            simp only [List.length_append]; omega
          have hle : utf8Len x - 1 ≤ rest.length := by omega
          have htake : (rest ++ b).take (utf8Len x - 1) = rest.take (utf8Len x - 1) :=
            List.take_append_of_le_length hle
          have hdrop : (rest ++ b).drop (utf8Len x - 1) = rest.drop (utf8Len x - 1) ++ b :=
            List.drop_append_of_le_length hle
          have hlen : (rest.drop (utf8Len x - 1)).length ≤ m := by
            simp only [List.length_cons] at h
            simp only [List.length_drop]; omega
          have ihx := ih (rest.drop (utf8Len x - 1)) b hlen
          rcases hA : utf8DecodeStream (rest.drop (utf8Len x - 1)) with ⟨cs, p⟩
          rcases hB : utf8DecodeStream (p ++ b) with ⟨cs2, p2⟩
          rw [hA, hB] at ihx
          simp only [List.cons_append, utf8DecodeStream_cons, hk, hk', if_pos,
            htake, hdrop, hA, ihx, hB]
        · rcases hA : utf8DecodeStream (x :: rest) with ⟨cs, p⟩
          rw [utf8DecodeStream_cons, if_neg hk] at hA
          have hcs : cs = [] := by cases hA; rfl
          have hp : p = x :: rest := by cases hA; rfl
          subst hcs hp
          simp
  intro a b
  exact main a.length a b (Nat.le_refl _)

/-! ## Line extraction is insensitive to chunk boundaries -/

theorem extractLines_nil : extractLines [] = ([], []) := rfl

theorem extractLines_cons (c : Char) (rest : List Char) :
    extractLines (c :: rest) =
      match extractLines rest with
      | (ls, b) =>
        if c = '\n' then ([] :: ls, b)
        else
          match ls with
          | [] => ([], c :: b)
          | l :: ls' => ((c :: l) :: ls', b) := rfl

/-- Extracting complete lines from `s ++ t` yields: the complete lines of
`s`, then the complete lines of the retained remainder of `s` followed by
`t`; the final remainders agree. -/
theorem extractLines_append : ∀ (s t : List Char),
    extractLines (s ++ t) =
      ((extractLines s).1 ++ (extractLines ((extractLines s).2 ++ t)).1,
       (extractLines ((extractLines s).2 ++ t)).2) := by
  intro s
  induction s with
  | nil => intro t; simp [extractLines_nil]
  | cons c s' ih =>
    intro t
    rcases hA : extractLines s' with ⟨A1, A2⟩
    rcases hB : extractLines (A2 ++ t) with ⟨B1, B2⟩
    have ihx : extractLines (s' ++ t) = (A1 ++ B1, B2) := by
      have h := ih t
      rw [hA] at h
      simp only at h
      rw [hB] at h
      simpa using h
    by_cases hc : c = '\n'
    · subst hc
      simp [List.cons_append, extractLines_cons, ihx, hA, hB]
    · cases A1 with
      | nil =>
        cases B1 with
        | nil => simp [List.cons_append, extractLines_cons, ihx, hA, hB, hc]
        | cons h hs => simp [List.cons_append, extractLines_cons, ihx, hA, hB, hc]
      | cons a as => simp [List.cons_append, extractLines_cons, ihx, hA, hB, hc]

/-! ## Line processing splits over concatenation -/

theorem processLines_append : ∀ (L1 L2 : List (List Char)) (cur : ParsedSSEEvent),
    processLines cur (L1 ++ L2) =
      ((processLines (processLines cur L1).1 L2).1,
       (processLines cur L1).2 ++ (processLines (processLines cur L1).1 L2).2) := by
  intro L1
  induction L1 with
  | nil => intro L2 cur; simp [processLines]
  | cons l ls ih =>
    intro L2 cur
    rcases h1 : processSSELine cur l with ⟨c1, o1⟩
    simp only [List.cons_append, processLines, h1, List.append_eq]
    rw [ih L2 c1]
    rcases h2 : processLines c1 ls with ⟨c2, o2⟩
    rcases h3 : processLines c2 L2 with ⟨c3, o3⟩
    simp

/-! ## Chunk-size invariance of the stream processor -/

theorem feedChunk_append (s : StreamState) (c1 c2 : List Nat) :
    feedChunk s (c1 ++ c2) =
      ((feedChunk (feedChunk s c1).1 c2).1,
       (feedChunk s c1).2 ++ (feedChunk (feedChunk s c1).1 c2).2) := by
  rcases hD1 : utf8DecodeStream (s.decPending ++ c1) with ⟨t1, p1⟩
  rcases hD2 : utf8DecodeStream (p1 ++ c2) with ⟨t2, p2⟩
  have hD : utf8DecodeStream (s.decPending ++ (c1 ++ c2)) = (t1 ++ t2, p2) := by
    rw [← List.append_assoc, utf8DecodeStream_append, hD1, hD2]
  rcases hE1 : extractLines (s.buf ++ t1) with ⟨L1, b1⟩
  rcases hE2 : extractLines (b1 ++ t2) with ⟨L2, b2⟩
  have hE : extractLines (s.buf ++ (t1 ++ t2)) = (L1 ++ L2, b2) := by
    rw [← List.append_assoc, extractLines_append, hE1, hE2]
  rcases hP1 : processLines s.cur L1 with ⟨cur1, o1⟩
  rcases hP2 : processLines cur1 L2 with ⟨cur2, o2⟩
  have hP : processLines s.cur (L1 ++ L2) = (cur2, o1 ++ o2) := by
    rw [processLines_append, hP1, hP2]
  simp only [feedChunk, hD, hE, hP, hD1, hE1, hP1, hD2, hE2, hP2]

theorem feedChunks_singleton (s : StreamState) (c : List Nat) :
    feedChunks s [c] = feedChunk s c := by
  rcases h : feedChunk s c with ⟨s1, o1⟩
  simp [feedChunks, h]

theorem feedChunks_cons (s : StreamState) (c : List Nat) (cs : List (List Nat)) :
    feedChunks s (c :: cs) =
      ((feedChunks (feedChunk s c).1 cs).1,
       (feedChunk s c).2 ++ (feedChunks (feedChunk s c).1 cs).2) := by
  rcases h1 : feedChunk s c with ⟨s1, o1⟩
  rcases h2 : feedChunks s1 cs with ⟨s2, o2⟩
  simp [feedChunks, h1, h2]

/-- **C1** (chunk-size invariance).  For every initial processor state and
every non-empty way of splitting a byte stream into sub-chunks, feeding the
sub-chunks one at a time to the `processStream` pipeline of
`FetchSSEClient` (streaming text decode, line buffering, line processing)
yields exactly the same final state and the same sequence of emitted
signals — in particular the same dispatched messages, in the same order,
with the same `data`/`event`/`id` contents — as feeding the concatenation
as a single chunk.  This holds for arbitrary byte streams, including splits
inside a multi-byte UTF-8 character or inside a field line. -/
theorem chunk_size_invariance : ∀ (cs : List (List Nat)) (s : StreamState) (c : List Nat),
    feedChunks s (c :: cs) = feedChunks s [(c :: cs).flatten]
      ∧ messagesOf (feedChunks s (c :: cs)).2
          = messagesOf (feedChunks s [(c :: cs).flatten]).2 := by
  intro cs
  induction cs with
  | nil =>
    intro s c
    have h : ([c] : List (List Nat)).flatten = c := by simp
    rw [h]
    exact ⟨rfl, rfl⟩
  | cons d ds ih =>
    intro s c
    have key : feedChunks s (c :: d :: ds) = feedChunks s [(c :: d :: ds).flatten] := by
      rw [feedChunks_cons, (ih (feedChunk s c).1 d).1]
      simp only [feedChunks_singleton]
      rw [show (c :: d :: ds).flatten = c ++ (d :: ds).flatten from by simp]
      rw [feedChunk_append s c ((d :: ds).flatten)]
    exact ⟨key, by rw [key]⟩

/-! ## Facts about lines and fields -/

theorem beginsWith_mem : ∀ (p l : List Char), beginsWith p l = true → ∀ a ∈ p, a ∈ l := by
  intro p
  induction p with
  | nil => intro l _ a ha; simp at ha
  | cons x xs ih =>
    intro l h a ha
    cases l with
    | nil => simp [beginsWith] at h
    | cons c cs =>
      simp only [beginsWith, Bool.and_eq_true, beq_iff_eq] at h
      rcases List.mem_cons.mp ha with h1 | h1
      · subst h1
        exact h.1 ▸ List.mem_cons_self _ _
      · exact List.mem_cons_of_mem _ (ih cs h.2 a h1)

theorem beginsWith_append_self : ∀ (p l : List Char), beginsWith p (p ++ l) = true := by
  intro p
  induction p with
  | nil => intro l; rfl
  | cons x xs ih => intro l; simp [beginsWith, ih]

/-- If trimming leaves nothing, every character of the line is whitespace. -/
theorem jsTrim_eq_nil_forall (l : List Char) (h : jsTrim l = []) :
    ∀ c ∈ l, jsIsSpace c = true := by
  intro c hc
  have h2 : (jsTrim l).reverse = [] := by rw [h]; rfl
  have h3 : List.dropWhile jsIsSpace (List.dropWhile jsIsSpace l).reverse = [] := by
    simpa [jsTrim] using congrArg List.reverse h
  have h4 : ∀ x ∈ (List.dropWhile jsIsSpace l).reverse, jsIsSpace x = true :=
    List.dropWhile_eq_nil_iff.mp h3
  have h5 : ∀ x ∈ List.dropWhile jsIsSpace l, jsIsSpace x = true := by
    intro x hx
    exact h4 x (List.mem_reverse.mpr hx)
  have := List.takeWhile_append_dropWhile jsIsSpace l
  rcases List.mem_append.mp (by rw [this]; exact hc) with h6 | h6
  · exact List.mem_takeWhile_imp h6
  · exact h5 c h6

/-- A line beginning with a non-whitespace character does not trim to the
empty line. -/
theorem jsTrim_cons_ne_nil (c : Char) (l : List Char) (hc : jsIsSpace c = false) :
    jsTrim (c :: l) ≠ [] := by
  intro h
  have := jsTrim_eq_nil_forall (c :: l) h c (List.mem_cons_self _ _)
  rw [hc] at this
  exact Bool.false_ne_true this

/-- Inversion for the first-colon split: the line is the field, the colon,
then the remainder. -/
theorem breakAtColon_parts : ∀ (l f v : List Char),
    breakAtColon l = some (f, v) → l = f ++ ':' :: v := by
  intro l
  induction l with
  | nil => intro f v h; simp [breakAtColon] at h
  | cons c cs ih =>
    intro f v h
    by_cases hc : c = ':'
    · subst hc
      simp only [breakAtColon, eq_self_iff_true, if_true, Option.some.injEq,
        Prod.mk.injEq] at h
      rw [← h.1, ← h.2]
      rfl
    · simp only [breakAtColon, if_neg hc] at h
      rcases hr : breakAtColon cs with _ | ⟨f', v'⟩
      · rw [hr] at h; simp at h
      · rw [hr] at h
        simp only [Option.some.injEq, Prod.mk.injEq] at h
        rw [← h.1, ← h.2]
        rw [List.cons_append]
        rw [ih f' v' hr]

/-- Splitting `data: <raw>` at the first colon gives field `data` and
remainder `raw` — the four field-name characters contain no colon. -/
theorem breakAtColon_dataLine (raw : List Char) :
    breakAtColon (chars "data:" ++ raw) = some (chars "data", raw) := rfl

/-- `parseSSEEvent` on a `data:` line appends the trimmed value and a
newline to the data accumulator (whole-value trim, per the source). -/
theorem parseSSEEvent_dataLine (cur : ParsedSSEEvent) (raw : List Char) :
    parseSSEEvent cur (chars "data:" ++ raw) =
      { cur with data := some ((cur.data.getD []) ++ jsTrim raw ++ ['\n']) } := by
  simp only [parseSSEEvent, breakAtColon_dataLine, eq_self_iff_true, if_true]

theorem processSSELine_nil (cur : ParsedSSEEvent) :
    processSSELine cur [] = (emptyEvent, .touched :: dispatchEvent cur) := rfl

/-- `processSSELine` on a `data:` field line only updates the accumulator
(and refreshes liveness). -/
theorem processSSELine_dataLine (cur : ParsedSSEEvent) (raw : List Char) :
    processSSELine cur (chars "data:" ++ raw) =
      ({ cur with data := some ((cur.data.getD []) ++ jsTrim raw ++ ['\n']) },
       [.touched]) := by
  have h1 : beginsWith (chars ":") (chars "data:" ++ raw) = false := rfl
  have h2 : jsTrim (chars "data:" ++ raw) ≠ [] := by
    have : chars "data:" ++ raw = 'd' :: (chars "ata:" ++ raw) := rfl
    rw [this]
    exact jsTrim_cons_ne_nil 'd' _ (by decide)
  have h3 : beginsWith (chars "data:") (chars "data:" ++ raw) = true :=
    beginsWith_append_self _ _
  simp only [processSSELine, h1, h2, h3, Bool.false_eq_true, if_false, if_neg h2,
    Bool.true_or, if_true, parseSSEEvent_dataLine]

/-! ## Projecting messages out of signal sequences -/

@[simp] theorem messagesOf_nil : messagesOf [] = [] := rfl

@[simp] theorem messagesOf_touched (l : List SSESignal) :
    messagesOf (.touched :: l) = messagesOf l := rfl

@[simp] theorem messagesOf_heartbeat (l : List SSESignal) :
    messagesOf (.heartbeat :: l) = messagesOf l := rfl

@[simp] theorem messagesOf_message (m : SSEMessage) (l : List SSESignal) :
    messagesOf (.message m :: l) = m :: messagesOf l := rfl

@[simp] theorem messagesOf_append : ∀ (a b : List SSESignal),
    messagesOf (a ++ b) = messagesOf a ++ messagesOf b := by
  intro a
  induction a with
  | nil => intro b; rfl
  | cons s rest ih =>
    intro b
    cases s <;> simp [ih]

@[simp] theorem messagesOf_replicate_touched : ∀ (n : Nat),
    messagesOf (List.replicate n .touched) = [] := by
  intro n
  induction n with
  | zero => rfl
  | succ m ih => simpa [List.replicate_succ] using ih

/-! ## Joining data lines -/

theorem joinNl_nil : joinNl [] = [] := rfl

theorem joinNl_cons (v : List Char) (vs : List (List Char)) :
    joinNl (v :: vs) = v ++ '\n' :: joinNl vs := by
  simp [joinNl]

theorem joinNl_eq_intercalate : ∀ (vs : List (List Char)), vs ≠ [] →
    joinNl vs = List.intercalate ['\n'] vs ++ ['\n'] := by
  intro vs
  induction vs with
  | nil => intro h; exact absurd rfl h
  | cons v vs' ih =>
    intro _
    cases vs' with
    | nil => simp [joinNl, List.intercalate]
    | cons w ws =>
      rw [joinNl_cons, ih (by simp)]
      simp [List.intercalate, List.intersperse_cons_cons]

theorem stripTrailingNl_concat (l : List Char) :
    stripTrailingNl (l ++ ['\n']) = l := by
  simp [stripTrailingNl, List.getLast?_concat, List.dropLast_concat]

theorem processLines_cons (cur : ParsedSSEEvent) (l : List Char)
    (ls : List (List Char)) :
    processLines cur (l :: ls) =
      ((processLines (processSSELine cur l).1 ls).1,
       (processSSELine cur l).2 ++ (processLines (processSSELine cur l).1 ls).2) := by
  rcases h1 : processSSELine cur l with ⟨c1, o1⟩
  rcases h2 : processLines c1 ls with ⟨c2, o2⟩
  simp [processLines, h1, h2]

/-- Processing a run of `data:` lines followed by the blank dispatch line,
starting from an accumulator that already holds `d0`: every line refreshes
liveness, and the dispatch emits one message whose data is `d0` followed by
the trimmed values each terminated by `'\n'`, with the final newline
stripped. -/
theorem processLines_data_acc : ∀ (raws : List (List Char)) (cur : ParsedSSEEvent)
    (d0 : List Char), cur.data = some d0 →
    processLines cur (raws.map (fun r => chars "data:" ++ r) ++ [[]]) =
      (emptyEvent,
       List.replicate raws.length SSESignal.touched ++
         [.touched, .message ⟨stripTrailingNl (d0 ++ joinNl (raws.map jsTrim)),
            cur.event, cur.id, cur.retry⟩]) := by
  intro raws
  induction raws with
  | nil =>
    intro cur d0 h
    simp [processLines, processSSELine_nil, dispatchEvent, h, joinNl_nil]
  | cons r rs ih =>
    intro cur d0 h
    rw [List.map_cons, List.cons_append, processLines_cons, processSSELine_dataLine]
    simp only [h, Option.getD_some]
    rw [ih { cur with data := some (d0 ++ jsTrim r ++ ['\n']) }
      (d0 ++ jsTrim r ++ ['\n']) rfl]
    simp [List.replicate_succ, joinNl_cons, List.append_assoc]

/-- **C2** (multi-line data join).  For every frame made of `data:` lines,
the dispatched message's data is the newline-join of the trimmed data-line
values (equivalently: each value followed by `'\n'`, with the trailing
newline stripped); and parsing the single frame
`"data: hel\ndata: lo\n\n"` through the full byte pipeline yields exactly
one message whose data is `"hel\nlo"`. -/
theorem multi_line_data_join :
    (∀ raws : List (List Char), raws ≠ [] →
      messagesOf (processLines emptyEvent
          (raws.map (fun r => chars "data:" ++ r) ++ [[]])).2
        = [⟨List.intercalate ['\n'] (raws.map jsTrim), none, none, none⟩])
    ∧ messagesOf (feedChunks initStreamState [asciiBytes "data: hel\ndata: lo\n\n"]).2
        = [⟨chars "hel\nlo", none, none, none⟩] := by
  constructor
  · intro raws h
    cases raws with
    | nil => exact absurd rfl h
    | cons r rs =>
      rw [List.map_cons, List.cons_append, processLines_cons, processSSELine_dataLine]
      simp only [emptyEvent, Option.getD_none, List.nil_append]
      rw [processLines_data_acc rs _ (jsTrim r ++ ['\n']) rfl]
      have hj : (jsTrim r ++ ['\n']) ++ joinNl (rs.map jsTrim)
          = List.intercalate ['\n'] ((r :: rs).map jsTrim) ++ ['\n'] := by
        rw [List.append_assoc, List.singleton_append, ← joinNl_cons, ← List.map_cons]
        exact joinNl_eq_intercalate _ (by simp)
      simp [hj, stripTrailingNl_concat, emptyEvent]
  · decide

/-- Witness for C2: the frame `"data: hel\ndata: lo\n\n"` (line values
`" hel"` and `" lo"`) yields exactly one message with data `"hel\nlo"`. -/
theorem multi_line_data_join_witness :
    ([chars " hel", chars " lo"] ≠ ([] : List (List Char)))
    ∧ messagesOf (processLines emptyEvent
        (([chars " hel", chars " lo"]).map (fun r => chars "data:" ++ r) ++ [[]])).2
      = [⟨chars "hel\nlo", none, none, none⟩] := by
  refine ⟨by decide, ?_⟩
  rw [multi_line_data_join.1 [chars " hel", chars " lo"] (by decide)]
  decide

/-- **C9** (comment transparency).  Every line beginning with `':'` leaves
the pending frame untouched, emits no message, fires `onHeartbeat`, and
refreshes the liveness timestamp; the frame `": ping\n\n"` fed through the
full byte pipeline yields zero messages, one heartbeat, and a liveness
refresh for each of its two lines, returning the processor to its initial
state. -/
theorem comment_transparency :
    (∀ (cur : ParsedSSEEvent) (line : List Char),
      beginsWith (chars ":") line = true →
      processSSELine cur line = (cur, [.touched, .heartbeat]))
    ∧ feedChunks initStreamState [asciiBytes ": ping\n\n"]
        = (initStreamState, [.touched, .heartbeat, .touched]) := by
  constructor
  · intro cur line h
    simp only [processSSELine, h, if_true]
  · decide

/-- Witness for C9: the comment line `": ping"` on a pending frame refreshes
liveness, fires the heartbeat, and emits nothing. -/
theorem comment_transparency_witness :
    beginsWith (chars ":") (chars ": ping") = true
    ∧ processSSELine ⟨none, some (chars "x\n"), none, none⟩ (chars ": ping")
        = (⟨none, some (chars "x\n"), none, none⟩, [.touched, .heartbeat]) :=
  ⟨by decide, comment_transparency.1 ⟨none, some (chars "x\n"), none, none⟩
    (chars ": ping") (by decide)⟩

/-- **C10** (whitespace-only lines dispatch like blank lines).  Any line
that trims to nothing — the empty line, a single space, a tab — takes the
dispatch branch of `processSSELine`, behaving exactly like the empty line:
the pending frame is dispatched (a message is emitted exactly when it holds
a `data` field) and the accumulator resets; such a line is never treated as
a comment or a field line. -/
theorem whitespace_line_dispatch :
    ∀ (cur : ParsedSSEEvent) (line : List Char), jsTrim line = [] →
      processSSELine cur line = processSSELine cur []
      ∧ processSSELine cur line = (emptyEvent, .touched :: dispatchEvent cur) := by
  intro cur line h
  have hcolon : beginsWith (chars ":") line = false := by
    cases hB : beginsWith (chars ":") line
    · rfl
    · exfalso
      have hmem : ':' ∈ line := beginsWith_mem _ _ hB ':' (by decide)
      have := jsTrim_eq_nil_forall line h ':' hmem
      simp [jsIsSpace] at this
  have hmain : processSSELine cur line = (emptyEvent, .touched :: dispatchEvent cur) := by
    simp only [processSSELine, hcolon, Bool.false_eq_true, if_false, h, if_true]
  exact ⟨by rw [hmain, processSSELine_nil], hmain⟩

/-- Witness for C10: a single-space line dispatches the pending
`data: hi` frame exactly as a blank line would. -/
theorem whitespace_line_dispatch_witness :
    jsTrim [' '] = []
    ∧ processSSELine ⟨none, some (chars "hi\n"), none, none⟩ [' ']
        = (emptyEvent, [.touched, .message ⟨chars "hi", none, none, none⟩]) := by
  refine ⟨by decide, ?_⟩
  rw [(whitespace_line_dispatch ⟨none, some (chars "hi\n"), none, none⟩ [' ']
    (by decide)).2]
  decide

/-- **C8 counterexample**.  The claim says a non-blank, no-colon line is
treated as a field name with empty value, so the frame `"data\n\n"` would
dispatch one message with empty data.  In the code the line `"data"` does
not match any of the `startsWith('data:')`-style guards (they all require
the colon), so it is ignored entirely and the frame dispatches no message. -/
theorem no_colon_line_cex :
    messagesOf (processLines emptyEvent [chars "data", []]).2 = []
    ∧ messagesOf (feedChunks initStreamState [asciiBytes "data\n\n"]).2 = []
    ∧ messagesOf (processLines emptyEvent [chars "data", []]).2
        ≠ [⟨[], none, none, none⟩] := by
  refine ⟨by decide, by decide, by decide⟩

/-- **C8 amended**.  A non-blank, non-comment line containing no colon is
ignored entirely by `processSSELine`: it contributes no field to the pending
frame, triggers no dispatch, and only refreshes the liveness timestamp. -/
theorem no_colon_line_amended :
    ∀ (cur : ParsedSSEEvent) (line : List Char), ':' ∉ line → jsTrim line ≠ [] →
      processSSELine cur line = (cur, [.touched]) := by
  intro cur line hc ht
  have h1 : beginsWith (chars ":") line = false := by
    cases hB : beginsWith (chars ":") line
    · rfl
    · exact absurd (beginsWith_mem _ _ hB ':' (by decide)) hc
  have h2 : beginsWith (chars "data:") line = false := by
    cases hB : beginsWith (chars "data:") line
    · rfl
    · exact absurd (beginsWith_mem _ _ hB ':' (by decide)) hc
  have h3 : beginsWith (chars "event:") line = false := by
    cases hB : beginsWith (chars "event:") line
    · rfl
    · exact absurd (beginsWith_mem _ _ hB ':' (by decide)) hc
  have h4 : beginsWith (chars "id:") line = false := by
    cases hB : beginsWith (chars "id:") line
    · rfl
    · exact absurd (beginsWith_mem _ _ hB ':' (by decide)) hc
  have h5 : beginsWith (chars "retry:") line = false := by
    cases hB : beginsWith (chars "retry:") line
    · rfl
    · exact absurd (beginsWith_mem _ _ hB ':' (by decide)) hc
  simp only [processSSELine, h1, h2, h3, h4, h5, Bool.false_eq_true, if_false,
    if_neg ht, Bool.or_self]

/-- Witness for the amended C8: the line `"data"` (no colon) leaves the
pending frame unchanged and emits nothing. -/
theorem no_colon_line_amended_witness :
    (':' ∉ chars "data")
    ∧ processSSELine ⟨none, some (chars "q\n"), none, none⟩ (chars "data")
        = (⟨none, some (chars "q\n"), none, none⟩, [.touched]) :=
  ⟨by decide, no_colon_line_amended ⟨none, some (chars "q\n"), none, none⟩
    (chars "data") (by decide) (by decide)⟩

/-- **C7 counterexample**.  The claim says only one leading space is
stripped from a field value, so `"data:  x \n\n"` would yield data
`" x "`.  The code calls `.trim()` on the whole value, yielding `"x"`. -/
theorem field_value_trim_cex :
    messagesOf (feedChunks initStreamState [asciiBytes "data:  x \n\n"]).2
        = [⟨chars "x", none, none, none⟩]
    ∧ chars "x" ≠ chars " x " := by
  refine ⟨by decide, by decide⟩

/-- **C7 amended**.  The value after the first colon of a field line is
trimmed of all leading and trailing whitespace (`value.trim()`), not of a
single leading space: a `data:` line always stores the fully trimmed value
(followed by `'\n'`) in the accumulator, and the frame `"data:  x \n\n"`
dispatches data `"x"`. -/
theorem field_value_trim_amended :
    (∀ (cur : ParsedSSEEvent) (raw : List Char),
      parseSSEEvent cur (chars "data:" ++ raw)
        = { cur with data := some ((cur.data.getD []) ++ jsTrim raw ++ ['\n']) })
    ∧ messagesOf (feedChunks initStreamState [asciiBytes "data:  x \n\n"]).2
        = [⟨chars "x", none, none, none⟩] :=
  ⟨parseSSEEvent_dataLine, by decide⟩

/-! ## The `event` field is not defaulted by the manual client -/

theorem parseSSEEvent_event_eq (cur : ParsedSSEEvent) (line : List Char)
    (h : beginsWith (chars "event:") line = false) :
    (parseSSEEvent cur line).event = cur.event := by
  rcases hb : breakAtColon line with _ | ⟨f, v⟩
  · simp [parseSSEEvent, hb]
  · have hparts := breakAtColon_parts line f v hb
    by_cases hf : f = chars "event"
    · exfalso
      subst hf
      rw [hparts] at h
      have : chars "event" ++ ':' :: v = chars "event:" ++ v := rfl
      rw [this, beginsWith_append_self] at h
      exact Bool.noConfusion h
    · simp only [parseSSEEvent, hb]
      split_ifs <;> rfl

theorem processSSELine_event_inv (cur : ParsedSSEEvent) (line : List Char)
    (hcur : cur.event = none) (h : beginsWith (chars "event:") line = false) :
    (processSSELine cur line).1.event = none
    ∧ ∀ m ∈ messagesOf (processSSELine cur line).2, m.event = none := by
  simp only [processSSELine]
  split_ifs with h1 h2 h3
  · exact ⟨hcur, by simp⟩
  · refine ⟨rfl, ?_⟩
    rcases hd : cur.data with _ | d
    · simp [dispatchEvent, hd]
    · simp [dispatchEvent, hd, hcur]
  · exact ⟨by rw [parseSSEEvent_event_eq cur line h]; exact hcur, by simp⟩
  · exact ⟨hcur, by simp⟩

theorem processLines_event_inv : ∀ (lines : List (List Char)) (cur : ParsedSSEEvent),
    cur.event = none → (∀ l ∈ lines, beginsWith (chars "event:") l = false) →
    (processLines cur lines).1.event = none
    ∧ ∀ m ∈ messagesOf (processLines cur lines).2, m.event = none := by
  intro lines
  induction lines with
  | nil => intro cur hcur _; exact ⟨hcur, by simp [processLines]⟩
  | cons l ls ih =>
    intro cur hcur hall
    have hl := hall l (List.mem_cons_self _ _)
    have hstep := processSSELine_event_inv cur l hcur hl
    have hrest := ih (processSSELine cur l).1 hstep.1
      (fun x hx => hall x (List.mem_cons_of_mem _ hx))
    rw [processLines_cons]
    refine ⟨hrest.1, ?_⟩
    intro m hm
    simp only [messagesOf_append, List.mem_append] at hm
    rcases hm with hm | hm
    · exact hstep.2 m hm
    · exact hrest.2 m hm

/-- **C3 counterexample**.  The claim says the mid-field split
`["data: hel", "lo\n\n"]` produces one message `{data: "hello",
event: "message"}`.  The pipeline does produce exactly one message with
data `"hello"`, but `FetchSSEClient.dispatchEvent` copies
`currentEvent.event` verbatim, so its event is `undefined` (`none`), not
`"message"`. -/
theorem default_event_type_cex :
    messagesOf (feedChunks initStreamState
        [asciiBytes "data: hel", asciiBytes "lo\n\n"]).2
      = [⟨chars "hello", none, none, none⟩]
    ∧ (messagesOf (feedChunks initStreamState
        [asciiBytes "data: hel", asciiBytes "lo\n\n"]).2).map SSEMessage.event
      ≠ [some (chars "message")] := by
  refine ⟨by decide, by decide⟩

/-- **C3 amended**.  A frame that sets `data` but never an `event` field
dispatches its message with the `event` field left unset (`none`) — the
manual client applies no `"message"` default.  The mid-field split
`["data: hel", "lo\n\n"]` produces exactly one message
`{data: "hello", event: undefined}`. -/
theorem default_event_type_amended :
    (∀ (lines : List (List Char)) (cur : ParsedSSEEvent), cur.event = none →
      (∀ l ∈ lines, beginsWith (chars "event:") l = false) →
      ∀ m ∈ messagesOf (processLines cur lines).2, m.event = none)
    ∧ messagesOf (feedChunks initStreamState
        [asciiBytes "data: hel", asciiBytes "lo\n\n"]).2
      = [⟨chars "hello", none, none, none⟩] :=
  ⟨fun lines cur hcur hall => (processLines_event_inv lines cur hcur hall).2,
   by decide⟩

/-- Witness for the amended C3: the frame `"data: hi\n\n"` emits a message
(with data `"hi"`) whose event is `none`. -/
theorem default_event_type_amended_witness :
    (∀ m ∈ messagesOf (processLines emptyEvent [chars "data: hi", []]).2,
      m.event = none)
    ∧ messagesOf (processLines emptyEvent [chars "data: hi", []]).2
        = [⟨chars "hi", none, none, none⟩] :=
  ⟨default_event_type_amended.1 [chars "data: hi", []] emptyEvent rfl (by decide),
   by decide⟩

/-! ## Backoff -/

/-- **C5** (backoff delay formula).  Both implementations compute the same
reconnect delay `min(schedule[min(k, 5)] + jitter, maxBackoffMs)` over the
schedule `[1000, 2000, 4000, 8000, 16000, 30000]`; for jitter in
`[0, 500)` and the default `maxBackoffMs = 30000`, attempt `0` gets delay
`1000 + jitter ∈ [1000, 1500)` and every attempt `k ≥ 5` gets exactly
`30000`. -/
theorem backoff_delay_formula :
    ∀ (k : Nat) (j : Rat), 0 ≤ j → j < 500 →
      fetchReconnectDelay k j 30000 = resilientReconnectDelay k j 30000
      ∧ (∀ M : Rat, fetchReconnectDelay k j M
          = min (BACKOFF_SCHEDULE.getD (min k (BACKOFF_SCHEDULE.length - 1)) 0 + j) M)
      ∧ (5 ≤ k → fetchReconnectDelay k j 30000 = 30000)
      ∧ fetchReconnectDelay 0 j 30000 = 1000 + j
      ∧ 1000 ≤ fetchReconnectDelay 0 j 30000
      ∧ fetchReconnectDelay 0 j 30000 < 1500 := by
  intro k j h0 h1
  have h4 : fetchReconnectDelay 0 j 30000 = 1000 + j := by
    show min ((1000 : Rat) + j) 30000 = 1000 + j
    exact min_eq_left (by linarith)
  refine ⟨rfl, fun M => rfl, ?_, h4, ?_, ?_⟩
  · intro hk
    show min (BACKOFF_SCHEDULE.getD (min k (BACKOFF_SCHEDULE.length - 1)) 0 + j)
        (30000 : Rat) = 30000
    have hlen : BACKOFF_SCHEDULE.length - 1 = 5 := rfl
    rw [hlen, Nat.min_eq_right hk]
    show min ((30000 : Rat) + j) 30000 = 30000
    exact min_eq_right (by linarith)
  · rw [h4]; linarith
  · rw [h4]; linarith

/-- Witness for C5 at `k = 7`, `j = 250`: the delay for attempt 7 is capped
at exactly 30000 and the delay for attempt 0 is 1250. -/
theorem backoff_delay_formula_witness :
    (0 : Rat) ≤ 250 ∧ (250 : Rat) < 500
    ∧ fetchReconnectDelay 7 250 30000 = 30000
    ∧ fetchReconnectDelay 0 250 30000 = 1250 := by
  have h := backoff_delay_formula 7 250 (by norm_num) (by norm_num)
  refine ⟨by norm_num, by norm_num, h.2.2.1 (by norm_num), ?_⟩
  rw [h.2.2.2.1]
  norm_num

/-! ## Quiescence of the lifecycle state machines -/

theorem fetchRun_cons (s : FetchSt) (e : FEvent) (es : List FEvent) :
    fetchRun s (e :: es) =
      ((fetchRun (fetchStep s e).1 es).1,
       (fetchStep s e).2 ++ (fetchRun (fetchStep s e).1 es).2) := by
  rcases h1 : fetchStep s e with ⟨s1, o1⟩
  rcases h2 : fetchRun s1 es with ⟨s2, o2⟩
  simp [fetchRun, h1, h2]

theorem rRun_cons (s : RSt) (e : REvent) (es : List REvent) :
    rRun s (e :: es) =
      ((rRun (rStep s e).1 es).1,
       (rStep s e).2 ++ (rRun (rStep s e).1 es).2) := by
  rcases h1 : rStep s e with ⟨s1, o1⟩
  rcases h2 : rRun s1 es with ⟨s2, o2⟩
  simp [rRun, h1, h2]

/-- A quiet `FetchSSEClient` stays quiet under every event except a consumer
`connect()`, and can emit at most `onConnectionStatus('disconnected')`
(from a repeated `close()`). -/
theorem fetchStep_quiet (s : FetchSt) (e : FEvent) (hq : FetchQuiet s)
    (he : e ≠ FEvent.connectCalled) :
    FetchQuiet (fetchStep s e).1
    ∧ ∀ c ∈ (fetchStep s e).2, c = FetchCall.onStatus ConnState.disconnected := by
  obtain ⟨h1, h2, h3, h4⟩ := hq
  cases e with
  | close =>
    refine ⟨⟨rfl, rfl, rfl, rfl⟩, ?_⟩
    intro c hc
    simpa [fetchStep] using hc
  | connectCalled => exact absurd rfl he
  | fetchOk =>
    have h : fetchStep s .fetchOk = (s, []) := by simp [fetchStep, h1]
    rw [h]
    exact ⟨⟨h1, h2, h3, h4⟩, by simp⟩
  | fetchFail msg =>
    have h : fetchStep s (.fetchFail msg) = (s, []) := by simp [fetchStep, h1]
    rw [h]
    exact ⟨⟨h1, h2, h3, h4⟩, by simp⟩
  | chunkArrives c =>
    have h : fetchStep s (.chunkArrives c) = (s, []) := by simp [fetchStep, h2]
    rw [h]
    exact ⟨⟨h1, h2, h3, h4⟩, by simp⟩
  | streamEnds =>
    have h : fetchStep s .streamEnds = (s, []) := by simp [fetchStep, h2]
    rw [h]
    exact ⟨⟨h1, h2, h3, h4⟩, by simp⟩
  | readFails msg =>
    have h : fetchStep s (.readFails msg) = (s, []) := by simp [fetchStep, h2]
    rw [h]
    exact ⟨⟨h1, h2, h3, h4⟩, by simp⟩
  | reconnectFires =>
    have h : fetchStep s .reconnectFires = (s, []) := by simp [fetchStep, h4]
    rw [h]
    exact ⟨⟨h1, h2, h3, h4⟩, by simp⟩
  | hbExpires =>
    have h : fetchStep s .hbExpires = (s, []) := by simp [fetchStep, h3]
    rw [h]
    exact ⟨⟨h1, h2, h3, h4⟩, by simp⟩

theorem fetchRun_quiet : ∀ (tr : List FEvent) (s : FetchSt), FetchQuiet s →
    (∀ e ∈ tr, e ≠ FEvent.connectCalled) →
    FetchQuiet (fetchRun s tr).1
    ∧ ∀ c ∈ (fetchRun s tr).2, c = FetchCall.onStatus ConnState.disconnected := by
  intro tr
  induction tr with
  | nil => intro s hq _; exact ⟨hq, by simp [fetchRun]⟩
  | cons e es ih =>
    intro s hq hall
    have hstep := fetchStep_quiet s e hq (hall e (List.mem_cons_self _ _))
    have hrest := ih (fetchStep s e).1 hstep.1
      (fun x hx => hall x (List.mem_cons_of_mem _ hx))
    rw [fetchRun_cons]
    refine ⟨hrest.1, ?_⟩
    intro c hc
    rcases List.mem_append.mp hc with hc | hc
    · exact hstep.2 c hc
    · exact hrest.2 c hc

/-- A quiet `ResilientSSE` stays quiet under every event except a consumer
`connect()`, emitting at most `disconnected`. -/
theorem rStep_quiet (s : RSt) (e : REvent) (hq : RQuiet s)
    (he : e ≠ REvent.connectCalled) :
    RQuiet (rStep s e).1
    ∧ ∀ c ∈ (rStep s e).2, c = RCall.onStatus ConnState.disconnected := by
  obtain ⟨h1, h2, h3⟩ := hq
  cases e with
  | close =>
    refine ⟨⟨rfl, rfl, fun _ => rfl⟩, ?_⟩
    intro c hc
    simpa [rStep, rClose, rCleanup] using hc
  | connectCalled => exact absurd rfl he
  | esOpened =>
    have h : rStep s .esOpened = (s, []) := by simp [rStep, h1]
    rw [h]; exact ⟨⟨h1, h2, h3⟩, by simp⟩
  | esMessage d i =>
    have h : rStep s (.esMessage d i) = (s, []) := by simp [rStep, h1]
    rw [h]; exact ⟨⟨h1, h2, h3⟩, by simp⟩
  | esPing =>
    have h : rStep s .esPing = (s, []) := by simp [rStep, h1]
    rw [h]; exact ⟨⟨h1, h2, h3⟩, by simp⟩
  | esDoneEvent =>
    have h : rStep s .esDoneEvent = (s, []) := by simp [rStep, h1]
    rw [h]; exact ⟨⟨h1, h2, h3⟩, by simp⟩
  | esCancelledEvent =>
    have h : rStep s .esCancelledEvent = (s, []) := by simp [rStep, h1]
    rw [h]; exact ⟨⟨h1, h2, h3⟩, by simp⟩
  | esErrorEvent msg =>
    have h : rStep s (.esErrorEvent msg) = (s, []) := by simp [rStep, h1]
    rw [h]; exact ⟨⟨h1, h2, h3⟩, by simp⟩
  | esConnError =>
    have h : rStep s .esConnError = (s, []) := by simp [rStep, rHandleConnError, h1]
    rw [h]; exact ⟨⟨h1, h2, h3⟩, by simp⟩
  | reconFires =>
    cases hr : s.reconPending with
    | false =>
      have h : rStep s .reconFires = (s, []) := by simp [rStep, hr]
      rw [h]; exact ⟨⟨h1, h2, h3⟩, by simp⟩
    | true =>
      have hd := h3 hr
      have h : rStep s .reconFires = ({ s with reconPending := false }, []) := by
        simp [rStep, hr, hd]
      rw [h]
      exact ⟨⟨h1, h2, fun hx => by simp at hx⟩, by simp⟩
  | hbExpires =>
    have h : rStep s .hbExpires = (s, []) := by simp [rStep, h2]
    rw [h]; exact ⟨⟨h1, h2, h3⟩, by simp⟩

theorem rRun_quiet : ∀ (tr : List REvent) (s : RSt), RQuiet s →
    (∀ e ∈ tr, e ≠ REvent.connectCalled) →
    RQuiet (rRun s tr).1
    ∧ ∀ c ∈ (rRun s tr).2, c = RCall.onStatus ConnState.disconnected := by
  intro tr
  induction tr with
  | nil => intro s hq _; exact ⟨hq, by simp [rRun]⟩
  | cons e es ih =>
    intro s hq hall
    have hstep := rStep_quiet s e hq (hall e (List.mem_cons_self _ _))
    have hrest := ih (rStep s e).1 hstep.1
      (fun x hx => hall x (List.mem_cons_of_mem _ hx))
    rw [rRun_cons]
    refine ⟨hrest.1, ?_⟩
    intro c hc
    rcases List.mem_append.mp hc with hc | hc
    · exact hstep.2 c hc
    · exact hrest.2 c hc

/-- A destroyed `ResilientSSE` stays destroyed under every event —
including consumer `connect()` calls, which it refuses — and emits at most
`disconnected`. -/
theorem rStep_dead (s : RSt) (e : REvent) (hd : RDead s) :
    RDead (rStep s e).1
    ∧ ∀ c ∈ (rStep s e).2, c = RCall.onStatus ConnState.disconnected := by
  obtain ⟨h0, h1, h2⟩ := hd
  cases e with
  | close =>
    refine ⟨⟨rfl, rfl, rfl⟩, ?_⟩
    intro c hc
    simpa [rStep, rClose, rCleanup] using hc
  | connectCalled =>
    have h : rStep s .connectCalled = (s, []) := by simp [rStep, rConnect, h0]
    rw [h]; exact ⟨⟨h0, h1, h2⟩, by simp⟩
  | esOpened =>
    have h : rStep s .esOpened = (s, []) := by simp [rStep, h1]
    rw [h]; exact ⟨⟨h0, h1, h2⟩, by simp⟩
  | esMessage d i =>
    have h : rStep s (.esMessage d i) = (s, []) := by simp [rStep, h1]
    rw [h]; exact ⟨⟨h0, h1, h2⟩, by simp⟩
  | esPing =>
    have h : rStep s .esPing = (s, []) := by simp [rStep, h1]
    rw [h]; exact ⟨⟨h0, h1, h2⟩, by simp⟩
  | esDoneEvent =>
    have h : rStep s .esDoneEvent = (s, []) := by simp [rStep, h1]
    rw [h]; exact ⟨⟨h0, h1, h2⟩, by simp⟩
  | esCancelledEvent =>
    have h : rStep s .esCancelledEvent = (s, []) := by simp [rStep, h1]
    rw [h]; exact ⟨⟨h0, h1, h2⟩, by simp⟩
  | esErrorEvent msg =>
    have h : rStep s (.esErrorEvent msg) = (s, []) := by simp [rStep, h1]
    rw [h]; exact ⟨⟨h0, h1, h2⟩, by simp⟩
  | esConnError =>
    have h : rStep s .esConnError = (s, []) := by simp [rStep, rHandleConnError, h0]
    rw [h]; exact ⟨⟨h0, h1, h2⟩, by simp⟩
  | reconFires =>
    cases hr : s.reconPending with
    | false =>
      have h : rStep s .reconFires = (s, []) := by simp [rStep, hr]
      rw [h]; exact ⟨⟨h0, h1, h2⟩, by simp⟩
    | true =>
      have h : rStep s .reconFires = ({ s with reconPending := false }, []) := by
        simp [rStep, hr, h0]
      rw [h]
      exact ⟨⟨h0, h1, h2⟩, by simp⟩
  | hbExpires =>
    have h : rStep s .hbExpires = (s, []) := by simp [rStep, h2]
    rw [h]; exact ⟨⟨h0, h1, h2⟩, by simp⟩

theorem rRun_dead : ∀ (tr : List REvent) (s : RSt), RDead s →
    RDead (rRun s tr).1
    ∧ ∀ c ∈ (rRun s tr).2, c = RCall.onStatus ConnState.disconnected := by
  intro tr
  induction tr with
  | nil => intro s hd; exact ⟨hd, by simp [rRun]⟩
  | cons e es ih =>
    intro s hd
    have hstep := rStep_dead s e hd
    have hrest := ih (rStep s e).1 hstep.1
    rw [rRun_cons]
    refine ⟨hrest.1, ?_⟩
    intro c hc
    rcases List.mem_append.mp hc with hc | hc
    · exact hstep.2 c hc
    · exact hrest.2 c hc

/-! ## Close terminality and retry exhaustion -/

/-- **C6** (close terminality and cancellation silence).  After `close()`,
from any instance state: `FetchSSEClient` — under any further events other
than a consumer `connect()` call — and `ResilientSSE` — under *any* further
events, consumer `connect()` included — never invoke `onError`, never emit
a message, never fire a heartbeat, and never transition to any state other
than `disconnected` (only a repeated `close()` re-reports `disconnected`).
In particular the user-initiated abort is never reported through
`onError`. -/
theorem close_terminal :
    (∀ (s : FetchSt) (tr : List FEvent), (∀ e ∈ tr, e ≠ FEvent.connectCalled) →
      ∀ c ∈ (fetchRun (fetchStep s .close).1 tr).2,
        c = FetchCall.onStatus ConnState.disconnected)
    ∧ (∀ (s : RSt) (tr : List REvent),
      ∀ c ∈ (rRun (rStep s .close).1 tr).2,
        c = RCall.onStatus ConnState.disconnected) := by
  constructor
  · intro s tr hall
    exact (fetchRun_quiet tr (fetchStep s .close).1 ⟨rfl, rfl, rfl, rfl⟩ hall).2
  · intro s tr
    exact (rRun_dead tr (rStep s .close).1 ⟨rfl, rfl, rfl⟩).2

/-- Witness for C6: a client closed while in the reconnecting state, then
subjected to a timer fire, a successful fetch, a data chunk, and a
heartbeat expiry plus a second `close()`, emits nothing but
`disconnected`. -/
theorem close_terminal_witness :
    (∀ e ∈ ([.reconnectFires, .fetchOk, .chunkArrives (asciiBytes "data: x\n\n"),
        .hbExpires, .close] : List FEvent), e ≠ FEvent.connectCalled)
    ∧ ∀ c ∈ (fetchRun
        (fetchStep ⟨false, false, false, true, 2, 5, false, initStreamState⟩ .close).1
        [.reconnectFires, .fetchOk, .chunkArrives (asciiBytes "data: x\n\n"),
         .hbExpires, .close]).2,
      c = FetchCall.onStatus ConnState.disconnected :=
  ⟨by decide,
   close_terminal.1 ⟨false, false, false, true, 2, 5, false, initStreamState⟩ _
     (by decide)⟩

/-- **C4 counterexample**.  The claim says that when a connection error
arrives with the attempt counter exhausted, `onError` is invoked with a
terminal "max attempts reached" error.  In `FetchSSEClient`,
`handleConnectionError` forwards the *underlying* error unchanged: at
`reconnectAttempts = maxReconnectAttempts = 5` a failing fetch reports
`onError("HTTP 500: Internal Server Error")` and then `disconnected`; no
"Max reconnection attempts reached" error is ever emitted. -/
theorem retry_exhaustion_cex :
    (fetchStep ⟨true, false, false, false, 5, 5, false, initStreamState⟩
        (.fetchFail "HTTP 500: Internal Server Error")).2
      = [.onError "HTTP 500: Internal Server Error", .onStatus .disconnected]
    ∧ FetchCall.onError "Max reconnection attempts reached"
        ∉ (fetchStep ⟨true, false, false, false, 5, 5, false, initStreamState⟩
            (.fetchFail "HTTP 500: Internal Server Error")).2 := by
  refine ⟨by decide, by decide⟩

/-- **C4 amended**.  When a connection error occurs with
`attempt ≥ maxReconnectAttempts`, both clients transition to
`disconnected`, invoke `onConnectionStatus('disconnected')`, invoke
`onError` exactly once, and schedule no further reconnection (no later
`connecting` or `reconnecting` transition without a fresh consumer
`connect()`); but the single `onError` of `FetchSSEClient` carries the
underlying error itself, while only `ResilientSSE` emits the terminal
`"Max reconnection attempts reached"` error. -/
theorem retry_exhaustion_amended :
    (∀ (s : FetchSt) (msg : String), s.pendingFetch = true → s.readerActive = false →
      s.reconArmed = false → s.maxAtt ≤ s.att →
      (fetchStep s (.fetchFail msg)).2 = [.onError msg, .onStatus .disconnected]
      ∧ ∀ (tr : List FEvent), (∀ e ∈ tr, e ≠ FEvent.connectCalled) →
          ∀ c ∈ (fetchRun (fetchStep s (.fetchFail msg)).1 tr).2,
            c = FetchCall.onStatus ConnState.disconnected)
    ∧ (∀ (s : RSt), s.isDestroyed = false → s.esOpen = true → s.reconPending = false →
      s.maxAtt ≤ s.att →
      (rStep s .esConnError).2
          = [.onStatus .disconnected, .onError "Max reconnection attempts reached"]
      ∧ ∀ (tr : List REvent), (∀ e ∈ tr, e ≠ REvent.connectCalled) →
          ∀ c ∈ (rRun (rStep s .esConnError).1 tr).2,
            c = RCall.onStatus ConnState.disconnected) := by
  constructor
  · intro s msg h1 h2 h3 h4
    have hstep : fetchStep s (.fetchFail msg)
        = ({ s with pendingFetch := false, isConn := false, hbArmed := false },
           [.onError msg, .onStatus .disconnected]) := by
      simp [fetchStep, h1, fetchHandleError, Nat.not_lt.mpr h4]
    rw [hstep]
    refine ⟨rfl, ?_⟩
    intro tr hall
    exact (fetchRun_quiet tr
      { s with pendingFetch := false, isConn := false, hbArmed := false }
      ⟨rfl, h2, rfl, h3⟩ hall).2
  · intro s h1 h2 h3 h4
    have h4' : (rCleanup s).maxAtt ≤ (rCleanup s).att := h4
    have hstep : rStep s .esConnError
        = (rCleanup s,
           [.onStatus .disconnected, .onError "Max reconnection attempts reached"]) := by
      simp [rStep, rHandleConnError, h1, h2, h4']
    rw [hstep]
    refine ⟨rfl, ?_⟩
    intro tr hall
    exact (rRun_quiet tr (rCleanup s)
      ⟨rfl, rfl, fun hx => Bool.noConfusion (h3.symm.trans hx)⟩ hall).2

/-- Witness for the amended C4: at `reconnectAttempts = maxReconnectAttempts
= 5`, a heartbeat-timeout failure of the manual client reports the
underlying error and `disconnected`, and a connection error of the managed
client reports `disconnected` plus the terminal error. -/
theorem retry_exhaustion_amended_witness :
    (fetchStep ⟨true, false, false, false, 5, 5, false, initStreamState⟩
        (.fetchFail "Heartbeat timeout")).2
      = [.onError "Heartbeat timeout", .onStatus .disconnected]
    ∧ (rStep ⟨false, true, false, false, 5, 5, none⟩ .esConnError).2
      = [.onStatus .disconnected, .onError "Max reconnection attempts reached"] :=
  ⟨(retry_exhaustion_amended.1 ⟨true, false, false, false, 5, 5, false, initStreamState⟩
      "Heartbeat timeout" rfl rfl rfl (by decide)).1,
   (retry_exhaustion_amended.2 ⟨false, true, false, false, 5, 5, none⟩
      rfl rfl rfl (by decide)).1⟩

end SSE
